import Mathlib

/- Shallow embedding of the SRD search and disambiguation engine of this
   repository: backends/srd_json.py (collapse, list_to_paragraphs,
   get_spell_info, the __SRD class with its search method) and the
   match-disambiguation logic of cogs/srdcog.py (spell_command, lines 38-50).
   Python values obtained from json.load are modelled by the Json type;
   Python exceptions by the Except monad over a PyErr error code. -/

namespace Srd

/-- JSON-derived Python values: the SRD tables hold strings, integers, lists
and dicts (dicts are insertion-ordered association lists with unique keys). -/
inductive Json where
  | null
  | num (n : Int)
  | str (s : String)
  | arr (items : List Json)
  | obj (fields : List (String × Json))
deriving Inhabited

/-- Python exception classes raised by the modelled code. -/
inductive PyErr where
  | keyError
  | indexError
  | typeError
  | attributeError
deriving DecidableEq

/-- str.lower() of a single character: ASCII letters are mapped to lower case. -/
def charLower (c : Char) : Char :=
  if 65 ≤ c.toNat ∧ c.toNat ≤ 90 then Char.ofNat (c.toNat + 32) else c

/-- str.lower() (the SRD data is ASCII, so the ASCII mapping is the behaviour used). -/
def strLower (s : String) : String := String.mk (s.data.map charLower)

/-- needle.isPrefix-style test on character lists, for the substring test below. -/
def startsList : List Char → List Char → Bool
  | [], _ => true
  | _ :: _, [] => false
  | c :: cs, d :: ds => c == d && startsList cs ds

/-- Whether the first list occurs contiguously inside the second. -/
def subList (n : List Char) : List Char → Bool
  | [] => n.isEmpty
  | d :: ds => startsList n (d :: ds) || subList n ds

/-- The Python expression needle in hay for strings: substring containment. -/
def pyIn (needle hay : String) : Bool := subList needle.data hay.data

/-- Characters treated as whitespace by str.split() with no arguments. -/
def isPySpace (c : Char) : Bool :=
  c == ' ' || c == '\t' || c == '\n' || c == '\r' || c == '\x0b' || c == '\x0c'

def splitWsAux : List Char → List Char → List String
  | [], acc => if acc.isEmpty then [] else [String.mk acc.reverse]
  | c :: cs, acc =>
    if isPySpace c then
      if acc.isEmpty then splitWsAux cs []
      else String.mk acc.reverse :: splitWsAux cs []
    else splitWsAux cs (c :: acc)

/-- str.split() with no arguments: split on whitespace runs, discarding empties. -/
def pySplitWs (s : String) : List String := splitWsAux s.data []

/-- sep.join(items) for a list of strings. -/
def pyJoin (sep : String) : List String → String
  | [] => ""
  | x :: xs => xs.foldl (fun acc y => acc ++ sep ++ y) x

/-- list.index for string lists (callers below only use it when the element occurs). -/
def indexOfStr (x : String) : List String → Nat
  | [] => 0
  | y :: ys => if y == x then 0 else indexOfStr x ys + 1

/-- Ordered dict lookup: first binding of the key (keys are unique in dicts). -/
def lookupKey (k : String) : List (String × Json) → Option Json
  | [] => none
  | (k2, v) :: rest => if k2 == k then some v else lookupKey k rest

/-- item[k] for a string key: dict lookup raising KeyError on a missing key;
subscripting a non-dict value with a string key raises TypeError. -/
def dictGetE (j : Json) (k : String) : Except PyErr Json :=
  match j with
  | .obj fs =>
    match lookupKey k fs with
    | some v => .ok v
    | none => .error .keyError
  | _ => .error .typeError

/-- The Python expression k in j for a string k: key membership for dicts,
element equality for lists (a str compares unequal to any non-str without an
error), substring for strings; int and None are not iterable, so TypeError. -/
def pyInKeys (k : String) (j : Json) : Except PyErr Bool :=
  match j with
  | .obj fs => .ok (fs.any (fun kv => kv.fst == k))
  | .arr items => .ok (items.any (fun it => match it with | .str s => s == k | _ => false))
  | .str s => .ok (pyIn k s)
  | _ => .error .typeError

/-- A value used where Python string concatenation demands a str (TypeError otherwise). -/
def asStrT : Json → Except PyErr String
  | .str s => .ok s
  | _ => .error .typeError

/-- A value on which a str method such as .lower() or .split() is called
(AttributeError if it is not a str). -/
def asStrA : Json → Except PyErr String
  | .str s => .ok s
  | _ => .error .attributeError

/-- A value that is indexed or iterated as a list. The SRD tables and the
multi-paragraph fields are JSON arrays; non-list values are modelled as a
TypeError (Python would also accept other sequences, which never occur here). -/
def asList : Json → Except PyErr (List Json)
  | .arr xs => .ok xs
  | _ => .error .typeError

/-- Iteration of str over a list demanding str elements, as done by str.join
(TypeError on a non-str element). -/
def strListM : List Json → Except PyErr (List String)
  | [] => .ok []
  | x :: rest => do
    let s ← asStrT x
    let others ← strListM rest
    .ok (s :: others)

/-- The argument of str.join: a list of strings (TypeError on a non-str
element); joining a string joins its characters. -/
def asJoinList : Json → Except PyErr (List String)
  | .arr xs => strListM xs
  | .str s => .ok (s.data.map (fun c => String.mk [c]))
  | _ => .error .typeError

/-- Python list subscripting xs[i] with an int index: negative indices count
from the end; out-of-range raises IndexError. -/
def pyIndex {α : Type} (xs : List α) (i : Int) : Except PyErr α :=
  let j : Int := if i < 0 then i + xs.length else i
  if h : 0 ≤ j ∧ j.toNat < xs.length then .ok (xs.get ⟨j.toNat, h.2⟩)
  else .error .indexError

/-- Python == between a value and a string literal: equal only when the value
is that str (a non-str compares unequal without an error). -/
def jsonEqStr (j : Json) (s : String) : Bool :=
  match j with
  | .str t => t == s
  | _ => false

/-- collapse from backends/srd_json.py: given a JSON-derived data structure,
collapse all found strings into one. The Python loop accumulates
result += "\x7b newline newline \x7d" + collapse(subitem) over list elements and dict
values; the recursion below produces the same string because concatenation is
associative with the empty string as identity. -/
def collapse : Json → String
  | .str s => s
  | .arr [] => ""
  | .arr (x :: xs) => "\n\n" ++ collapse x ++ collapse (.arr xs)
  | .obj [] => ""
  | .obj ((_, v) :: fs) => "\n\n" ++ collapse v ++ collapse (.obj fs)
  | .num _ => ""
  | .null => ""

/-- NUM_ABBREVS from backends/srd_json.py, used for spell levels. -/
def NUM_ABBREVS : List String :=
  ["1st", "2nd", "3rd", "4th", "5th", "6th", "7th", "8th", "9th"]

/-- The SpellInfo namedtuple. Fields that Python computes through string
operations are necessarily str on success and are typed String; fields copied
raw out of the record carry the raw Json value. -/
structure SpellInfo where
  name : Json
  subhead : String
  casting_time : Json
  casting_range : Json
  components : String
  duration : Json
  description : Json
  higher_levels : Option Json
  page : String
deriving Inhabited

/-- The append loop of list_to_paragraphs: each later paragraph is appended
after a newline and an EM QUAD indent (TypeError when a paragraph is not a
str). -/
def joinIndentM : String → List Json → Except PyErr String
  | acc, [] => .ok acc
  | acc, p :: rest => do
    let ps ← asStrT p
    joinIndentM (acc ++ "\n " ++ ps) rest

/-- list_to_paragraphs from backends/srd_json.py: items[0], then each later
paragraph appended after a newline and an EM QUAD indent. An empty list raises
IndexError at items[0]; with a single item the item is returned raw; with more
items every item must be a str (TypeError otherwise). -/
def list_to_paragraphs (items : List Json) : Except PyErr Json :=
  match items with
  | [] => .error .indexError
  | x :: rest =>
    if rest.isEmpty then .ok x
    else do
      let s0 ← asStrT x
      let t ← joinIndentM s0 rest
      pure (Json.str t)

/-- The subhead computation inside get_spell_info, on the already looked-up
value of spell["level"]. Python compares spell["level"] == 0 (false for any
non-int, without an error); in the else branch spell["level"] - 1 raises
TypeError for a non-int, NUM_ABBREVS is indexed, then the school name has
.lower() called on it (AttributeError for a non-str) and the ritual field is
compared == "yes" (false for any non-str). -/
def spellSubhead (spell levelJ : Json) : Except PyErr String :=
  match levelJ with
  | .num n =>
    if n = 0 then do
      let schoolJ ← dictGetE spell "school"
      let scJ ← dictGetE schoolJ "name"
      let sc ← asStrT scJ
      pure (sc ++ " cantrip")
    else do
      let ab ← pyIndex NUM_ABBREVS (n - 1)
      let schoolJ ← dictGetE spell "school"
      let scJ ← dictGetE schoolJ "name"
      let sc ← asStrA scJ
      let base := ab ++ "-level " ++ strLower sc
      let ritJ ← dictGetE spell "ritual"
      pure (if jsonEqStr ritJ "yes" then base ++ " (ritual)" else base)
  | _ => .error .typeError

/-- get_spell_info from backends/srd_json.py: extract fields from a spell given
in the dnd5eapi JSON schema, in the evaluation order of the Python source. -/
def get_spell_info (spell : Json) : Except PyErr SpellInfo := do
  let name ← dictGetE spell "name"
  let levelJ ← dictGetE spell "level"
  let subhead ← spellSubhead spell levelJ
  let casting_time ← dictGetE spell "casting_time"
  let casting_range ← dictGetE spell "range"
  let compsJ ← dictGetE spell "components"
  let comps ← asJoinList compsJ
  let joined := pyJoin ", " comps
  let components ←
    if pyIn "M" joined then do
      let matJ ← dictGetE spell "material"
      let matS ← asStrT matJ
      pure (joined ++ " (" ++ matS ++ ")")
    else pure joined
  let duration ← dictGetE spell "duration"
  let descJ ← dictGetE spell "desc"
  let descL ← asList descJ
  let description ← list_to_paragraphs descL
  let hasHL ← pyInKeys "higher_level" spell
  let higher_levels ←
    if hasHL then do
      let hlJ ← dictGetE spell "higher_level"
      let hlL ← asList hlJ
      let hl ← list_to_paragraphs hlL
      pure (some hl)
    else pure (none : Option Json)
  let pageJ ← dictGetE spell "page"
  let pageS ← asStrA pageJ
  let page ← pyIndex (pySplitWs pageS) (-1)
  pure { name, subhead, casting_time, casting_range, components,
         duration, description, higher_levels, page }

/-- The loaded SRD: the raw dict mapping resource names to parsed JSON data. -/
structure SRD where
  raw : List (String × Json)

/-- The value returned by __SRD.search. The two early returns in the Python
source produce a bare list, while the normal path produces the
(results, truncated) pair, so the return value is one of two shapes. -/
inductive SearchRet where
  | bare (results : List SpellInfo)
  | pair (results : List SpellInfo) (truncated : Bool)

/-- The scanning loop of __SRD.search (lines 120-128). The Python loop appends
matches to a growing results list and, after appending, breaks once
trunc and len(results) > trunc; here count is the number of results collected
before the current record, and the value returned is the list of results
collected from this point on together with the truncated flag. -/
def searchLoop (attr request : String) (trunc : Nat) :
    Nat → List Json → Except PyErr (List SpellInfo × Bool)
  | _, [] => .ok ([], false)
  | count, item :: rest => do
    let v ← dictGetE item attr
    let searchText := strLower (collapse v)
    if pyIn request searchText then do
      let info ← get_spell_info item
      if trunc ≠ 0 ∧ count + 1 > trunc then
        .ok ([info], true)
      else do
        let pr ← searchLoop attr request trunc (count + 1) rest
        .ok (info :: pr.fst, pr.snd)
    else
      searchLoop attr request trunc count rest

/-- __SRD.search from backends/srd_json.py. The try block around
self.raw[resource] catches only ValueError, but a dict subscript with a
missing key raises KeyError, so the handler (which would return a bare empty
list) is unreachable and the KeyError propagates. The attribute probe
attr not in target[0] indexes the table (IndexError on an empty table) and on
a missing attribute returns the bare empty list, not the (results, truncated)
pair announced by the docstring and the return annotation. -/
def search (srd : SRD) (resource attr request : String) (trunc : Nat) :
    Except PyErr SearchRet :=
  match lookupKey resource srd.raw with
  | none => .error .keyError
  | some target => do
    let items ← asList target
    let first ← pyIndex items 0
    let hasAttr ← pyInKeys attr first
    if !hasAttr then
      .ok (.bare [])
    else do
      let pr ← searchLoop attr request trunc 0 items
      .ok (.pair pr.fst pr.snd)

/-- The list comprehension building spell_names_lower in cogs/srdcog.py:
each matched record's name has .lower() called on it (AttributeError for a
non-str name). -/
def namesLowerM : List SpellInfo → Except PyErr (List String)
  | [] => .ok []
  | m :: rest => do
    let s ← asStrA m.name
    let others ← namesLowerM rest
    .ok (strLower s :: others)

/-- The three terminal outcomes of the match-disambiguation logic in
cogs/srdcog.py (spell_command): no match, an ambiguous could-be list carrying
the matched names, or a single resolved record. -/
inductive Outcome where
  | notFound
  | ambiguous (names : List Json)
  | resolved (spell : SpellInfo)

/-- Lines 38-50 of cogs/srdcog.py (spell_command), as a function of the
request and the matches returned by the search: zero matches report not-found;
otherwise the lower-cased names are computed (calling .lower() on a non-str
name would raise AttributeError); more than one match with no exact
case-insensitive name equality reports the could-be list; otherwise the first
exact lower-cased name match is selected when one exists, the positional first
match when not. -/
def disambiguate (request : String) (found : List SpellInfo) : Except PyErr Outcome :=
  if found.length = 0 then .ok .notFound
  else do
    let spell_names := found.map (fun m => m.name)
    let spell_names_lower ← namesLowerM found
    if found.length > 1 ∧ strLower request ∉ spell_names_lower then
      .ok (.ambiguous spell_names)
    else if strLower request ∉ spell_names_lower then
      .ok (.resolved (found.headD default))
    else
      .ok (.resolved (found.getD (indexOfStr (strLower request) spell_names_lower) default))

/-- Whether __SRD.search counts a record as a match for the request: the
request occurs verbatim in the lower-cased collapsed attribute text (false
also when the record lacks the attribute, in which case the scan itself
raises before this is consulted). -/
def matchedBy (attr request : String) (item : Json) : Bool :=
  match dictGetE item attr with
  | .ok v => pyIn request (strLower (collapse v))
  | .error _ => false

/-- The SpellInfo produced for a record on which get_spell_info succeeds. -/
def infoD (item : Json) : SpellInfo :=
  match get_spell_info item with
  | .ok i => i
  | .error _ => default

/-- The lower-cased name of a match whose name field is a str. -/
def nameLowerD (m : SpellInfo) : String :=
  match m.name with
  | .str s => strLower s
  | _ => ""

/-! The string leaves of a nested value, in natural traversal order, and the
fact that collapse presents them in that order. -/

/-- The string leaves of a nested value in traversal order: lists in index
order, dicts in stored key order. -/
def leaves : Json → List String
  | .str s => [s]
  | .arr [] => []
  | .arr (x :: xs) => leaves x ++ leaves (.arr xs)
  | .obj [] => []
  | .obj ((_, v) :: fs) => leaves v ++ leaves (.obj fs)
  | .num _ => []
  | .null => []

/-- The given strings occur inside s, in order, as disjoint substrings. -/
def seqWithin (s : String) : List String → Prop
  | [] => True
  | p :: ps => ∃ a b, s = a ++ p ++ b ∧ seqWithin b ps

/-- Whether a string consists of newline characters only. -/
def newlinesOnly (s : String) : Bool := s.data.all (fun c => c == '\n')

/-- A spells-table record in the dnd5eapi schema, as in the end-to-end example
of the specification. -/
def fireballJson : Json := Json.obj
  [("name", Json.str "Fireball"),
   ("level", Json.num 3),
   ("school", Json.obj [("name", Json.str "Evocation")]),
   ("ritual", Json.str "no"),
   ("casting_time", Json.str "1 action"),
   ("range", Json.str "150 feet"),
   ("components", Json.arr [Json.str "V", Json.str "S", Json.str "M"]),
   ("material", Json.str "A tiny ball of bat guano and sulfur."),
   ("duration", Json.str "Instantaneous"),
   ("desc", Json.arr [Json.str "A bright streak flashes from your pointing finger."]),
   ("page", Json.str "phb 241")]

def spellsSRD : SRD := ⟨[("spells", Json.arr [fireballJson])]⟩

/-- A well-formed spell record with the given name, for concrete tables. -/
def mkSpell (nm : String) : Json := Json.obj
  [("name", Json.str nm),
   ("level", Json.num 3),
   ("school", Json.obj [("name", Json.str "Evocation")]),
   ("ritual", Json.str "no"),
   ("casting_time", Json.str "1 action"),
   ("range", Json.str "150 feet"),
   ("components", Json.arr [Json.str "V", Json.str "S"]),
   ("duration", Json.str "Instantaneous"),
   ("desc", Json.arr [Json.str "A spell."]),
   ("page", Json.str "phb 100")]

/-- A spells table in which three records match the query missile. -/
def missileSRD : SRD := ⟨[("spells", Json.arr
  [mkSpell "Magic Missile", mkSpell "Missile Storm", mkSpell "Missile Ward"])]⟩

/-- A record in the shape of the conditions table: name and desc only, none
of the spell schema fields. -/
def blindedJson : Json := Json.obj
  [("name", Json.str "Blinded"),
   ("desc", Json.arr [Json.str "A blinded creature cannot see."])]

def conditionsSRD : SRD := ⟨[("conditions", Json.arr [blindedJson])]⟩

/-- A normalized record named Mass Heal, for the disambiguation examples. -/
def massHealInfo : SpellInfo :=
  { name := Json.str "Mass Heal", subhead := "9th-level evocation",
    casting_time := Json.str "1 action", casting_range := Json.str "60 feet",
    components := "V, S", duration := Json.str "Instantaneous",
    description := Json.str "A flood of healing energy flows from you.",
    higher_levels := none, page := "258" }

/-- A normalized record named Mass Healing Word, whose name contains the
query mass heal as a proper substring. -/
def massHealingWordInfo : SpellInfo :=
  { name := Json.str "Mass Healing Word", subhead := "3rd-level evocation",
    casting_time := Json.str "1 bonus action", casting_range := Json.str "60 feet",
    components := "V", duration := Json.str "Instantaneous",
    description := Json.str "As you call out words of restoration.",
    higher_levels := none, page := "258" }

@[simp] theorem ok_bind {α β : Type} (a : α) (f : α → Except PyErr β) :
    (Except.ok a >>= f) = f a := rfl

@[simp] theorem error_bind {α β : Type} (e : PyErr) (f : α → Except PyErr β) :
    ((Except.error e : Except PyErr α) >>= f) = Except.error e := rfl

@[simp] theorem collapse_str (s : String) : collapse (Json.str s) = s := by simp [collapse]

example : collapse (Json.arr [Json.null]) = "\n\n" := by simp [collapse]
example : collapse (Json.obj [("a", Json.str "x"), ("b", Json.arr [Json.str "y", Json.str "z"])])
    = "\n\nx\n\n\n\ny\n\nz" := by simp [collapse]
example : strLower "FireBall" = "fireball" := by decide
example : pyIn "fire" "a fireball" = true := by decide
example : pyIn "FIRE" "a fireball" = false := by decide
example : pySplitWs "phb 241" = ["phb", "241"] := by decide

example : ∃ i, get_spell_info fireballJson = Except.ok i ∧ i.subhead = "3rd-level evocation" :=
  ⟨_, rfl, rfl⟩

example : search spellsSRD "spells" "name" "fireball" 5
    = Except.ok (.pair [infoD fireballJson] false) := by
  simp [search, spellsSRD, searchLoop, fireballJson, dictGetE, lookupKey, asList,
    pyIndex, pyInKeys, collapse, infoD]
  rfl

/-! Lemmas about the Python primitives. -/

theorem pyIndex_zero {α : Type} {xs : List α} {x : α} (h : xs.head? = some x) :
    pyIndex xs 0 = Except.ok x := by
  cases xs with
  | nil => simp at h
  | cons y ys =>
    simp at h
    subst h
    simp [pyIndex]

theorem pyIndex_nat {α : Type} (xs : List α) (k : Nat) (d : α) (h : k < xs.length) :
    pyIndex xs (k : Int) = Except.ok (xs.getD k d) := by
  have hneg : ¬ ((k : Int) < 0) := by omega
  simp only [pyIndex, hneg, if_false]
  rw [dif_pos (by constructor <;> omega)]
  have ht : ((k : Int)).toNat = k := by omega
  simp only [ht, List.get_eq_getElem]
  rw [List.getD_eq_getElem?_getD, List.getElem?_eq_getElem h]
  rfl

theorem pyIndex_last {α : Type} (xs : List α) (h : xs ≠ []) :
    pyIndex xs (-1) = Except.ok (xs.getLast h) := by
  have hlen : 0 < xs.length := List.length_pos.mpr h
  have hneg : ((-1 : Int) < 0) := by omega
  simp only [pyIndex, hneg, if_true]
  rw [dif_pos (by constructor <;> omega)]
  have ht : ((-1 : Int) + xs.length).toNat = xs.length - 1 := by omega
  simp only [ht, List.get_eq_getElem]
  rw [List.getLast_eq_getElem]

theorem strListM_strs (ss : List String) :
    strListM (ss.map Json.str) = Except.ok ss := by
  induction ss with
  | nil => rfl
  | cons s rest ih => simp [strListM, asStrT, ih]

theorem joinIndentM_strs (ss : List String) (acc : String) :
    joinIndentM acc (ss.map Json.str)
      = Except.ok (ss.foldl (fun a p => a ++ "\n " ++ p) acc) := by
  induction ss generalizing acc with
  | nil => rfl
  | cons s rest ih => simp [joinIndentM, asStrT, ih]

theorem list_to_paragraphs_strs (d : String) (ds : List String) :
    list_to_paragraphs ((d :: ds).map Json.str)
      = Except.ok (Json.str (ds.foldl (fun acc p => acc ++ "\n " ++ p) d)) := by
  cases ds with
  | nil => rfl
  | cons e es =>
    simp only [List.map_cons, list_to_paragraphs]
    rw [if_neg (by simp)]
    have hj := joinIndentM_strs (e :: es) d
    simp only [List.map_cons] at hj
    simp [asStrT, hj]

/-! Characterization of the search scan loop. -/

theorem searchLoop_zero (attr request : String) (items : List Json) (count : Nat)
    (hA : ∀ it ∈ items, ∃ v, dictGetE it attr = Except.ok v)
    (hI : ∀ it ∈ items, matchedBy attr request it = true →
      ∃ i, get_spell_info it = Except.ok i) :
    searchLoop attr request 0 count items
      = Except.ok ((items.filter (matchedBy attr request)).map infoD, false) := by
  induction items generalizing count with
  | nil => simp [searchLoop]
  | cons item rest ih =>
    obtain ⟨v, hv⟩ := hA item (by simp)
    have hmb : matchedBy attr request item = pyIn request (strLower (collapse v)) := by
      simp [matchedBy, hv]
    simp only [searchLoop, hv, ok_bind]
    cases hm : pyIn request (strLower (collapse v)) with
    | false =>
      rw [if_neg (by simp [hm])]
      rw [ih count (fun it h2 => hA it (by simp [h2])) (fun it h2 => hI it (by simp [h2]))]
      rw [List.filter_cons_of_neg (by simp [hmb, hm])]
    | true =>
      obtain ⟨i, hi⟩ := hI item (by simp) (by rw [hmb, hm])
      rw [if_pos (by simp [hm])]
      simp only [hi, ok_bind]
      rw [if_neg (by simp)]
      rw [ih (count + 1) (fun it h2 => hA it (by simp [h2])) (fun it h2 => hI it (by simp [h2]))]
      rw [List.filter_cons_of_pos (by simp [hmb, hm])]
      simp [infoD, hi]

theorem searchLoop_pos (attr request : String) (t : Nat) (ht : t ≠ 0)
    (items : List Json) (count : Nat) (hc : count ≤ t)
    (hA : ∀ it ∈ items, ∃ v, dictGetE it attr = Except.ok v)
    (hI : ∀ it ∈ items, matchedBy attr request it = true →
      ∃ i, get_spell_info it = Except.ok i) :
    searchLoop attr request t count items
      = if (items.filter (matchedBy attr request)).length + count ≤ t then
          Except.ok ((items.filter (matchedBy attr request)).map infoD, false)
        else
          Except.ok (((items.filter (matchedBy attr request)).take (t + 1 - count)).map infoD,
            true) := by
  induction items generalizing count with
  | nil =>
    simp only [searchLoop, List.filter_nil, List.length_nil, List.map_nil]
    rw [if_pos (by omega)]
  | cons item rest ih =>
    obtain ⟨v, hv⟩ := hA item (by simp)
    have hmb : matchedBy attr request item = pyIn request (strLower (collapse v)) := by
      simp [matchedBy, hv]
    simp only [searchLoop, hv, ok_bind]
    cases hm : pyIn request (strLower (collapse v)) with
    | false =>
      rw [if_neg (by simp [hm])]
      rw [ih count hc (fun it h2 => hA it (by simp [h2])) (fun it h2 => hI it (by simp [h2]))]
      rw [List.filter_cons_of_neg (by simp [hmb, hm])]
    | true =>
      obtain ⟨i, hi⟩ := hI item (by simp) (by rw [hmb, hm])
      rw [if_pos (by simp [hm])]
      simp only [hi, ok_bind]
      rw [List.filter_cons_of_pos (by simp [hmb, hm])]
      by_cases hcnt : count + 1 > t
      · have hceq : count = t := by omega
        rw [if_pos (by exact ⟨ht, hcnt⟩)]
        rw [if_neg (by simp; omega)]
        subst hceq
        have : count + 1 - count = 1 := by omega
        rw [this]
        simp [infoD, hi]
      · rw [if_neg (by intro hh; exact hcnt hh.2)]
        rw [ih (count + 1) (by omega) (fun it h2 => hA it (by simp [h2]))
          (fun it h2 => hI it (by simp [h2]))]
        by_cases hfits : (rest.filter (matchedBy attr request)).length + (count + 1) ≤ t
        · rw [if_pos hfits]
          rw [if_pos (by simp; omega)]
          simp [infoD, hi]
        · rw [if_neg hfits]
          rw [if_neg (by simp; omega)]
          simp only [ok_bind]
          have htake : t + 1 - count = (t + 1 - (count + 1)) + 1 := by omega
          rw [htake]
          simp [infoD, hi]

/-- Unfolding of search down to the scan loop, for a loaded resource whose
first record carries the attribute. -/
theorem search_run (srd : SRD) (resource attr request : String) (trunc : Nat)
    {items : List Json} {first : Json}
    (hres : lookupKey resource srd.raw = some (Json.arr items))
    (hfirst : items.head? = some first)
    (hattr : pyInKeys attr first = Except.ok true) :
    search srd resource attr request trunc
      = (searchLoop attr request trunc 0 items) >>= (fun pr =>
          Except.ok (.pair pr.fst pr.snd)) := by
  simp only [search, hres, asList, ok_bind, pyIndex_zero hfirst, hattr, Bool.not_true]
  rw [if_neg (by simp)]

/-! The subhead computation on well-formed spell records. -/

theorem spellSubhead_cantrip {spell schoolJ : Json} {sc : String}
    (hschool : dictGetE spell "school" = Except.ok schoolJ)
    (hscn : dictGetE schoolJ "name" = Except.ok (Json.str sc)) :
    spellSubhead spell (Json.num 0) = Except.ok (sc ++ " cantrip") := by
  simp [spellSubhead, hschool, hscn, asStrT]

theorem spellSubhead_leveled {spell schoolJ ritJ : Json} {sc : String} (m : Nat) (hm : m ≤ 8)
    (hschool : dictGetE spell "school" = Except.ok schoolJ)
    (hscn : dictGetE schoolJ "name" = Except.ok (Json.str sc))
    (hrit : dictGetE spell "ritual" = Except.ok ritJ) :
    spellSubhead spell (Json.num ((m : Int) + 1))
      = Except.ok (if jsonEqStr ritJ "yes"
          then NUM_ABBREVS.getD m "" ++ "-level " ++ strLower sc ++ " (ritual)"
          else NUM_ABBREVS.getD m "" ++ "-level " ++ strLower sc) := by
  have hne : ¬ (((m : Int) + 1) = 0) := by omega
  have hlen : m < NUM_ABBREVS.length := by simp [NUM_ABBREVS]; omega
  have hidx : ((m : Int) + 1) - 1 = (m : Int) := by omega
  simp only [spellSubhead, hne, if_false, hidx, pyIndex_nat NUM_ABBREVS m "" hlen, ok_bind,
    hschool, hscn, asStrA, hrit]
  rfl

/-- C6: on a record carrying the full dnd5eapi spell schema, get_spell_info
succeeds and deterministically produces the subhead of the Players Handbook
entry: school plus cantrip at level 0, ordinal plus lower-cased school at
levels 1 to 9, with the ritual suffix appended exactly when the record's
ritual field is the string yes. -/
theorem get_spell_info_subhead (spell : Json) {nm schoolJ ct rg dur : Json}
    {lvl : Int} {sc rit pg : String} {comps : List String}
    (hname : dictGetE spell "name" = Except.ok nm)
    (hlevel : dictGetE spell "level" = Except.ok (Json.num lvl))
    (hlvl0 : 0 ≤ lvl) (hlvl9 : lvl ≤ 9)
    (hschool : dictGetE spell "school" = Except.ok schoolJ)
    (hscn : dictGetE schoolJ "name" = Except.ok (Json.str sc))
    (hrit : dictGetE spell "ritual" = Except.ok (Json.str rit))
    (hct : dictGetE spell "casting_time" = Except.ok ct)
    (hrg : dictGetE spell "range" = Except.ok rg)
    (hcomp : dictGetE spell "components" = Except.ok (Json.arr (comps.map Json.str)))
    (hmat : pyIn "M" (pyJoin ", " comps) = true →
      ∃ mat, dictGetE spell "material" = Except.ok (Json.str mat))
    (hdur : dictGetE spell "duration" = Except.ok dur)
    (hdesc : ∃ d ds, dictGetE spell "desc" = Except.ok (Json.arr ((d :: ds).map Json.str)))
    (hhl : pyInKeys "higher_level" spell = Except.ok false ∨
      (pyInKeys "higher_level" spell = Except.ok true ∧
       ∃ hd hds, dictGetE spell "higher_level" = Except.ok (Json.arr ((hd :: hds).map Json.str))))
    (hpage : dictGetE spell "page" = Except.ok (Json.str pg))
    (hpg : pySplitWs pg ≠ []) :
    ∃ info, get_spell_info spell = Except.ok info ∧
      info.subhead = (if lvl = 0 then sc ++ " cantrip"
        else if rit == "yes"
          then NUM_ABBREVS.getD (lvl.toNat - 1) "" ++ "-level " ++ strLower sc ++ " (ritual)"
          else NUM_ABBREVS.getD (lvl.toNat - 1) "" ++ "-level " ++ strLower sc) := by
  have hsub : spellSubhead spell (Json.num lvl)
      = Except.ok (if lvl = 0 then sc ++ " cantrip"
        else if rit == "yes"
          then NUM_ABBREVS.getD (lvl.toNat - 1) "" ++ "-level " ++ strLower sc ++ " (ritual)"
          else NUM_ABBREVS.getD (lvl.toNat - 1) "" ++ "-level " ++ strLower sc) := by
    by_cases h0 : lvl = 0
    · subst h0
      rw [if_pos rfl]
      exact spellSubhead_cantrip hschool hscn
    · rw [if_neg h0]
      obtain ⟨m, hm9, hlm⟩ : ∃ m : Nat, m ≤ 8 ∧ lvl = (m : Int) + 1 :=
        ⟨(lvl - 1).toNat, by omega, by omega⟩
      subst hlm
      rw [spellSubhead_leveled m hm9 hschool hscn hrit]
      have ht : (((m : Int) + 1).toNat - 1) = m := by omega
      rw [ht]
      rfl
  obtain ⟨d, ds, hdescE⟩ := hdesc
  simp only [get_spell_info, hname, ok_bind, hlevel, hsub, hct, hrg, hcomp,
    asJoinList, strListM_strs, hdur, hdescE, asList, list_to_paragraphs_strs,
    hpage, asStrA]
  by_cases hM : pyIn "M" (pyJoin ", " comps) = true
  · obtain ⟨mat, hmatE⟩ := hmat hM
    rw [if_pos hM]
    simp only [hmatE, asStrT, ok_bind]
    rcases hhl with hfalse | ⟨htrue, hd, hds, hhlE⟩
    · simp only [hfalse, ok_bind, Bool.false_eq_true, if_false,
        pyIndex_last (pySplitWs pg) hpg, ok_bind]
      exact ⟨_, rfl, rfl⟩
    · simp only [htrue, ok_bind, if_true, hhlE, asList, list_to_paragraphs_strs,
        pyIndex_last (pySplitWs pg) hpg, ok_bind]
      exact ⟨_, rfl, rfl⟩
  · rw [if_neg hM]
    simp only [pure_bind]
    rcases hhl with hfalse | ⟨htrue, hd, hds, hhlE⟩
    · simp only [hfalse, ok_bind, Bool.false_eq_true, if_false,
        pyIndex_last (pySplitWs pg) hpg, ok_bind]
      exact ⟨_, rfl, rfl⟩
    · simp only [htrue, ok_bind, if_true, hhlE, asList, list_to_paragraphs_strs,
        pyIndex_last (pySplitWs pg) hpg, ok_bind]
      exact ⟨_, rfl, rfl⟩

/-! Lemmas about the disambiguation logic. -/

theorem namesLowerM_ok (found : List SpellInfo)
    (h : ∀ m ∈ found, ∃ s, m.name = Json.str s) :
    namesLowerM found = Except.ok (found.map nameLowerD) := by
  induction found with
  | nil => rfl
  | cons m rest ih =>
    obtain ⟨s, hs⟩ := h m (by simp)
    simp [namesLowerM, hs, asStrA, ih (fun x hx => h x (by simp [hx])), nameLowerD]

theorem indexOf_find (x : String) (l : List SpellInfo)
    (h : x ∈ l.map nameLowerD) :
    l.find? (fun m => nameLowerD m == x)
      = some (l.getD (indexOfStr x (l.map nameLowerD)) default) := by
  induction l with
  | nil => simp at h
  | cons y ys ih =>
    cases hy : (nameLowerD y == x) with
    | true =>
      rw [@List.find?_cons_of_pos _ (fun m => nameLowerD m == x) y ys hy]
      simp [indexOfStr, hy]
    | false =>
      have hx : x ∈ ys.map nameLowerD := by
        simp only [List.map_cons, List.mem_cons] at h
        rcases h with h | h
        · simp only [beq_eq_false_iff_ne, ne_eq] at hy
          exact absurd h.symm hy
        · exact h
      rw [@List.find?_cons_of_neg _ (fun m => nameLowerD m == x) y ys (by simp [hy])]
      simp only [List.map_cons, indexOfStr, hy, Bool.false_eq_true, if_false]
      rw [ih hx]
      simp [List.getD_cons_succ]

theorem indexOfStr_lt (x : String) (l : List String) (h : x ∈ l) :
    indexOfStr x l < l.length := by
  induction l with
  | nil => simp at h
  | cons y ys ih =>
    cases hy : (y == x) with
    | true => simp [indexOfStr, hy]
    | false =>
      have hx : x ∈ ys := by
        rcases List.mem_cons.mp h with h | h
        · simp only [beq_eq_false_iff_ne, ne_eq] at hy
          exact absurd h.symm hy
        · exact h
      simp [indexOfStr, hy, ih hx]

theorem getD_mem (l : List SpellInfo) (i : Nat) (h : i < l.length) :
    l.getD i default ∈ l := by
  rw [List.getD_eq_getElem?_getD, List.getElem?_eq_getElem h]
  simp [List.getElem_mem]

/-! Lemmas for records that lack parts of the spell schema. -/

theorem get_spell_info_missing_level {fs : List (String × Json)} {v : Json}
    (hn : lookupKey "name" fs = some v) (hl : lookupKey "level" fs = none) :
    get_spell_info (Json.obj fs) = Except.error PyErr.keyError := by
  simp [get_spell_info, dictGetE, hn, hl]

theorem searchLoop_missing_level (attr request : String) (trunc : Nat)
    (items : List Json) :
    (∀ it ∈ items, ∃ fs, it = Json.obj fs ∧ (∃ v, lookupKey "name" fs = some v) ∧
      lookupKey "level" fs = none) →
    (∃ it ∈ items, matchedBy attr request it = true) →
    ∀ count, searchLoop attr request trunc count items = Except.error PyErr.keyError := by
  induction items with
  | nil =>
    intro _ hmatch _
    simp at hmatch
  | cons item rest ih =>
    intro hobj hmatch count
    obtain ⟨fs, hit, ⟨v, hv⟩, hl⟩ := hobj item (by simp)
    subst hit
    cases hattr : lookupKey attr fs with
    | none => simp [searchLoop, dictGetE, hattr]
    | some w =>
      have hdg : dictGetE (Json.obj fs) attr = Except.ok w := by simp [dictGetE, hattr]
      simp only [searchLoop, hdg, ok_bind]
      cases hm : pyIn request (strLower (collapse w)) with
      | true =>
        rw [if_pos (by simp [hm])]
        simp [get_spell_info_missing_level hv hl]
      | false =>
        rw [if_neg (by simp [hm])]
        refine ih (fun it h2 => hobj it (by simp [h2])) ?_ count
        obtain ⟨it, hin, hmt⟩ := hmatch
        rcases List.mem_cons.mp hin with heq | hin2
        · exfalso
          rw [heq] at hmt
          simp only [matchedBy, hdg] at hmt
          rw [hm] at hmt
          exact Bool.false_ne_true hmt
        · exact ⟨it, hin2, hmt⟩

theorem seqWithin_left (t s : String) (ps : List String) (h : seqWithin s ps) :
    seqWithin (t ++ s) ps := by
  cases ps with
  | nil => trivial
  | cons p rest =>
    obtain ⟨a, b, heq, hrest⟩ := h
    exact ⟨t ++ a, b, by simp [heq, String.append_assoc], hrest⟩

theorem seqWithin_concat (s1 s2 : String) (ps1 ps2 : List String)
    (h1 : seqWithin s1 ps1) (h2 : seqWithin s2 ps2) :
    seqWithin (s1 ++ s2) (ps1 ++ ps2) := by
  induction ps1 generalizing s1 with
  | nil => exact seqWithin_left s1 s2 ps2 h2
  | cons p rest ih =>
    obtain ⟨a, b, heq, hrest⟩ := h1
    refine ⟨a, b ++ s2, ?_, ih b hrest⟩
    simp [heq, String.append_assoc]

/-- Every string leaf occurs in the collapsed string, in traversal order. -/
theorem collapse_seqWithin (j : Json) : seqWithin (collapse j) (leaves j) := by
  induction j using collapse.induct with
  | case1 s =>
    simp only [collapse_str, leaves]
    exact ⟨"", "", by simp, trivial⟩
  | case2 =>
    simp only [collapse, leaves]
    trivial
  | case3 x xs ihx ihxs =>
    simp only [collapse, leaves]
    have h := seqWithin_concat (collapse x) (collapse (.arr xs)) _ _ ihx ihxs
    have h2 := seqWithin_left "\n\n" _ _ h
    rw [String.append_assoc]
    exact h2
  | case4 =>
    simp only [collapse, leaves]
    trivial
  | case5 k v fs ihv ihfs =>
    simp only [collapse, leaves]
    have h := seqWithin_concat (collapse v) (collapse (.obj fs)) _ _ ihv ihfs
    have h2 := seqWithin_left "\n\n" _ _ h
    rw [String.append_assoc]
    exact h2
  | case6 n =>
    simp only [collapse, leaves]
    trivial
  | case7 =>
    simp only [collapse, leaves]
    trivial

theorem newlinesOnly_append (a b : String) :
    newlinesOnly (a ++ b) = (newlinesOnly a && newlinesOnly b) := by
  simp [newlinesOnly, String.data_append, List.all_append]

/-- A value containing no string leaves collapses to newline characters only
(the separators contributed by the container elements). -/
theorem collapse_no_leaves (j : Json) (h : leaves j = []) :
    newlinesOnly (collapse j) = true := by
  induction j using collapse.induct with
  | case1 s => simp [leaves] at h
  | case2 =>
    simp only [collapse]
    decide
  | case3 x xs ihx ihxs =>
    simp only [leaves, List.append_eq_nil] at h
    simp only [collapse, newlinesOnly_append, ihx h.1, ihxs h.2]
    decide
  | case4 =>
    simp only [collapse]
    decide
  | case5 k v fs ihv ihfs =>
    simp only [leaves, List.append_eq_nil] at h
    simp only [collapse, newlinesOnly_append, ihv h.1, ihfs h.2]
    decide
  | case6 n =>
    simp only [collapse]
    decide
  | case7 =>
    simp only [collapse]
    decide

/-! Claim theorems. -/

/-- C1: the claim says that for a resource name that does not name a loaded
table, search returns the pair of an empty list and truncated false and never
raises. In the code, self.raw[resource] raises KeyError for a missing key and
the surrounding handler catches only ValueError, so the KeyError propagates
out of search (and even the unreachable handler would return a bare list, not
the pair). This theorem evaluates the code on the claimed input class: an
unknown resource makes search raise KeyError. -/
theorem search_unknown_resource_keyError (srd : SRD) (resource attr request : String)
    (trunc : Nat) (h : lookupKey resource srd.raw = none) :
    search srd resource attr request trunc = Except.error PyErr.keyError := by
  simp [search, h]

theorem search_unknown_resource_keyError_witness :
    search spellsSRD "bogus" "name" "fire" 5 = Except.error PyErr.keyError :=
  search_unknown_resource_keyError spellsSRD "bogus" "name" "fire" 5 rfl

/-- C2 counterexample: the claim says the query is matched case-insensitively,
so that searching name for FIREBALL in upper case still matches the record
named Fireball. The code lowercases only the record text, never the query, so
the upper-case query finds nothing while the lower-case query finds the
record. -/
theorem search_query_case_counterexample :
    search spellsSRD "spells" "name" "FIREBALL" 5 = Except.ok (SearchRet.pair [] false) ∧
    search spellsSRD "spells" "name" "fireball" 5
      = Except.ok (SearchRet.pair [infoD fireballJson] false) := by
  constructor
  · simp [search, spellsSRD, searchLoop, fireballJson, dictGetE, lookupKey, asList,
      pyIndex, pyInKeys, collapse, infoD]
    rfl
  · simp [search, spellsSRD, searchLoop, fireballJson, dictGetE, lookupKey, asList,
      pyIndex, pyInKeys, collapse, infoD]
    rfl

/-- C2 amended: search lowercases the collapsed record text but uses the query
verbatim, so matching is case-insensitive only in the record text: a record
matches exactly when the query occurs verbatim in the lower-cased collapsed
attribute text (the lower-case query fireball therefore matches the record
named Fireball, but upper-case queries do not match letters). With truncation
disabled the returned matches are exactly the matching records, formatted, in
first-match-first table order. -/
theorem search_matches_filter_order (srd : SRD) (resource attr request : String)
    {items : List Json} {first : Json}
    (hres : lookupKey resource srd.raw = some (Json.arr items))
    (hfirst : items.head? = some first)
    (hattr : pyInKeys attr first = Except.ok true)
    (hA : ∀ it ∈ items, ∃ v, dictGetE it attr = Except.ok v)
    (hI : ∀ it ∈ items, matchedBy attr request it = true →
      ∃ i, get_spell_info it = Except.ok i) :
    search srd resource attr request 0
      = Except.ok (SearchRet.pair ((items.filter (matchedBy attr request)).map infoD) false) := by
  rw [search_run srd resource attr request 0 hres hfirst hattr]
  rw [searchLoop_zero attr request items 0 hA hI]
  rfl

theorem search_matches_filter_order_witness :
    search spellsSRD "spells" "name" "fireball" 0
      = Except.ok (SearchRet.pair [infoD fireballJson] false) := by
  have hm : matchedBy "name" "fireball" fireballJson = true := by
    simp [matchedBy, fireballJson, dictGetE, lookupKey]
    decide
  have h := search_matches_filter_order spellsSRD "spells" "name" "fireball" rfl rfl rfl
    (fun it hit => by
      simp only [List.mem_singleton] at hit
      subst hit
      exact ⟨_, rfl⟩)
    (fun it hit _ => by
      simp only [List.mem_singleton] at hit
      subst hit
      exact ⟨_, rfl⟩)
  simpa [hm] using h

/-- C3: with a nonzero limit, when more than limit records match, search
returns exactly limit plus one matches, the first limit plus one matching
records in table order (so no record matched later is ever included), with
truncated true; when at most limit records match, all of them are returned
with truncated false. -/
theorem search_truncation_spec (srd : SRD) (resource attr request : String)
    (trunc : Nat) (ht : trunc ≠ 0) {items : List Json} {first : Json}
    (hres : lookupKey resource srd.raw = some (Json.arr items))
    (hfirst : items.head? = some first)
    (hattr : pyInKeys attr first = Except.ok true)
    (hA : ∀ it ∈ items, ∃ v, dictGetE it attr = Except.ok v)
    (hI : ∀ it ∈ items, matchedBy attr request it = true →
      ∃ i, get_spell_info it = Except.ok i) :
    (trunc < (items.filter (matchedBy attr request)).length →
      search srd resource attr request trunc
        = Except.ok (SearchRet.pair
            (((items.filter (matchedBy attr request)).take (trunc + 1)).map infoD) true) ∧
      (((items.filter (matchedBy attr request)).take (trunc + 1)).map infoD).length
        = trunc + 1) ∧
    ((items.filter (matchedBy attr request)).length ≤ trunc →
      search srd resource attr request trunc
        = Except.ok (SearchRet.pair ((items.filter (matchedBy attr request)).map infoD)
            false)) := by
  constructor
  · intro hgt
    constructor
    · rw [search_run srd resource attr request trunc hres hfirst hattr]
      rw [searchLoop_pos attr request trunc ht items 0 (by omega) hA hI]
      rw [if_neg (by omega)]
      simp only [Nat.sub_zero, ok_bind]
    · simp only [List.length_map, List.length_take]
      omega
  · intro hle
    rw [search_run srd resource attr request trunc hres hfirst hattr]
    rw [searchLoop_pos attr request trunc ht items 0 (by omega) hA hI]
    rw [if_pos (by omega)]
    rfl

theorem search_truncation_spec_witness :
    search missileSRD "spells" "name" "missile" 1
      = Except.ok (SearchRet.pair
          [infoD (mkSpell "Magic Missile"), infoD (mkSpell "Missile Storm")] true) := by
  have hm1 : matchedBy "name" "missile" (mkSpell "Magic Missile") = true := by
    simp [matchedBy, mkSpell, dictGetE, lookupKey]
    decide
  have hm2 : matchedBy "name" "missile" (mkSpell "Missile Storm") = true := by
    simp [matchedBy, mkSpell, dictGetE, lookupKey]
    decide
  have hm3 : matchedBy "name" "missile" (mkSpell "Missile Ward") = true := by
    simp [matchedBy, mkSpell, dictGetE, lookupKey]
    decide
  have hfil : [mkSpell "Magic Missile", mkSpell "Missile Storm",
      mkSpell "Missile Ward"].filter (matchedBy "name" "missile")
      = [mkSpell "Magic Missile", mkSpell "Missile Storm", mkSpell "Missile Ward"] := by
    simp [List.filter_cons, hm1, hm2, hm3]
  have h := (search_truncation_spec missileSRD "spells" "name" "missile" 1 (by decide)
    rfl rfl rfl
    (fun it hit => by
      simp only [List.mem_cons, List.not_mem_nil, or_false] at hit
      rcases hit with rfl | rfl | rfl <;> exact ⟨_, rfl⟩)
    (fun it hit _ => by
      simp only [List.mem_cons, List.not_mem_nil, or_false] at hit
      rcases hit with rfl | rfl | rfl <;> exact ⟨_, rfl⟩)).1
    (by rw [hfil]; decide)
  rw [hfil] at h
  simpa using h.1

/-- C4: when some matched record's lower-cased name equals the lower-cased
query, the disambiguator resolves to the first such exact match, preferring it
over the positional first match even when other candidates contain the query
as a substring. -/
theorem disambiguate_exact_name_precedence (request : String) (found : List SpellInfo)
    (hnames : ∀ m ∈ found, ∃ s, m.name = Json.str s)
    (hexact : strLower request ∈ found.map nameLowerD) :
    ∃ m, found.find? (fun m2 => nameLowerD m2 == strLower request) = some m ∧
      disambiguate request found = Except.ok (Outcome.resolved m) ∧
      nameLowerD m = strLower request := by
  have hne : found ≠ [] := by
    intro h
    subst h
    simp at hexact
  have hlen : ¬ (found.length = 0) := by simpa [List.length_eq_zero] using hne
  have hfind := indexOf_find (strLower request) found hexact
  refine ⟨found.getD (indexOfStr (strLower request) (found.map nameLowerD)) default,
    hfind, ?_, ?_⟩
  · simp only [disambiguate]
    rw [if_neg hlen, namesLowerM_ok found hnames, ok_bind]
    rw [if_neg (by intro hc; exact hc.2 hexact)]
    rw [if_neg (by intro hc; exact hc hexact)]
  · have := List.find?_some hfind
    simpa using this

theorem disambiguate_exact_name_precedence_witness :
    disambiguate "mass heal" [massHealInfo, massHealingWordInfo]
      = Except.ok (Outcome.resolved massHealInfo) := by
  obtain ⟨m, hfind, hdis, hname⟩ :=
    disambiguate_exact_name_precedence "mass heal" [massHealInfo, massHealingWordInfo]
      (by
        intro m hm
        simp only [List.mem_cons, List.not_mem_nil, or_false] at hm
        rcases hm with rfl | rfl
        · exact ⟨_, rfl⟩
        · exact ⟨_, rfl⟩)
      (by decide)
  have h2 : [massHealInfo, massHealingWordInfo].find?
      (fun m2 => nameLowerD m2 == strLower "mass heal") = some massHealInfo := rfl
  have hm : m = massHealInfo := by
    have h3 := hfind.symm.trans h2
    exact Option.some.inj h3
  rw [hm] at hdis
  exact hdis

/-- C5: the claim says that an attribute absent from the first record of a
loaded table yields the pair of an empty list and truncated false. The code
does return silently in this case, but it returns the bare empty list, not
the pair promised by the docstring and by the declared return shape, so a
caller unpacking results and flag fails. This theorem evaluates the code on
the claimed input class and records that the two return shapes differ. -/
theorem search_missing_attr_bare_list (srd : SRD) (resource attr request : String)
    (trunc : Nat) {items : List Json} {first : Json}
    (hres : lookupKey resource srd.raw = some (Json.arr items))
    (hfirst : items.head? = some first)
    (hattr : pyInKeys attr first = Except.ok false) :
    search srd resource attr request trunc = Except.ok (SearchRet.bare []) ∧
    SearchRet.bare [] ≠ SearchRet.pair [] false := by
  constructor
  · simp [search, hres, asList, pyIndex_zero hfirst, hattr]
  · intro h
    exact SearchRet.noConfusion h

theorem search_missing_attr_bare_list_witness :
    search spellsSRD "spells" "bogus" "fire" 5 = Except.ok (SearchRet.bare []) ∧
    SearchRet.bare [] ≠ SearchRet.pair [] false :=
  search_missing_attr_bare_list spellsSRD "spells" "bogus" "fire" 5 rfl rfl rfl

theorem get_spell_info_subhead_witness :
    ∃ info, get_spell_info fireballJson = Except.ok info ∧
      info.subhead = "3rd-level evocation" := by
  obtain ⟨info, h1, h2⟩ :=
    @get_spell_info_subhead fireballJson (Json.str "Fireball")
      (Json.obj [("name", Json.str "Evocation")]) (Json.str "1 action")
      (Json.str "150 feet") (Json.str "Instantaneous") 3 "Evocation" "no" "phb 241"
      ["V", "S", "M"] rfl rfl (by decide) (by decide) rfl rfl rfl rfl rfl rfl
      (fun _ => ⟨"A tiny ball of bat guano and sulfur.", rfl⟩) rfl
      ⟨"A bright streak flashes from your pointing finger.", [], rfl⟩
      (Or.inl rfl) rfl (by decide)
  refine ⟨info, h1, ?_⟩
  rw [h2]
  rfl

/-- C7 counterexample: the claim says a value containing no string leaves
collapses to the empty string. A list holding one non-string element has no
string leaves, yet collapses to a paragraph separator alone, which is not
empty. -/
theorem collapse_no_strings_counterexample :
    leaves (Json.arr [Json.null]) = [] ∧
    collapse (Json.arr [Json.null]) = "\n\n" ∧ ("\n\n" : String) ≠ "" := by
  refine ⟨by simp [leaves], by simp [collapse], by decide⟩

/-- C7 amended: collapse presents every string leaf, in natural traversal
order (lists in index order, dicts in stored key order), the leaves appearing
in order as disjoint substrings; a value with no string leaves collapses to a
string of paragraph-separator newlines only (empty only for string-free
scalars and empty containers); and the documented dict example collapses to a
string containing x, y, z in that order, each preceded by a separator. -/
theorem collapse_leaves_in_order :
    (∀ j : Json, seqWithin (collapse j) (leaves j)) ∧
    (∀ j : Json, leaves j = [] → newlinesOnly (collapse j) = true) ∧
    collapse (Json.obj [("a", Json.str "x"), ("b", Json.arr [Json.str "y", Json.str "z"])])
      = "\n\nx\n\n\n\ny\n\nz" :=
  ⟨collapse_seqWithin, collapse_no_leaves, by simp [collapse]⟩

theorem collapse_leaves_in_order_witness :
    newlinesOnly (collapse (Json.arr [Json.null, Json.num 4])) = true :=
  collapse_leaves_in_order.2.1 (Json.arr [Json.null, Json.num 4]) (by simp [leaves])

/-- C8: the disambiguator yields exactly one of three terminal outcomes: zero
matches yield not-found; more than one match with no exact lower-cased name
equality yields ambiguous, carrying the ordered candidate names; every
remaining case yields resolved with a record drawn from the matches. -/
theorem disambiguate_outcome_cases (request : String) (found : List SpellInfo)
    (hnames : ∀ m ∈ found, ∃ s, m.name = Json.str s) :
    (found = [] → disambiguate request found = Except.ok Outcome.notFound) ∧
    (1 < found.length → strLower request ∉ found.map nameLowerD →
      disambiguate request found
        = Except.ok (Outcome.ambiguous (found.map (fun m => m.name)))) ∧
    (found ≠ [] → (found.length ≤ 1 ∨ strLower request ∈ found.map nameLowerD) →
      ∃ m, m ∈ found ∧ disambiguate request found = Except.ok (Outcome.resolved m)) := by
  refine ⟨?_, ?_, ?_⟩
  · intro h
    subst h
    rfl
  · intro hlen hnot
    have hne0 : ¬ (found.length = 0) := by omega
    simp only [disambiguate]
    rw [if_neg hne0, namesLowerM_ok found hnames, ok_bind]
    rw [if_pos ⟨hlen, hnot⟩]
  · intro hne hor
    have hne0 : ¬ (found.length = 0) := by simpa [List.length_eq_zero] using hne
    simp only [disambiguate]
    rw [if_neg hne0, namesLowerM_ok found hnames, ok_bind]
    by_cases hmem : strLower request ∈ found.map nameLowerD
    · rw [if_neg (by intro hc; exact hc.2 hmem)]
      rw [if_neg (by intro hc; exact hc hmem)]
      refine ⟨_, ?_, rfl⟩
      apply getD_mem
      have h := indexOfStr_lt (strLower request) (found.map nameLowerD) hmem
      simpa using h
    · have hle : found.length ≤ 1 := by
        rcases hor with h | h
        · exact h
        · exact absurd h hmem
      rw [if_neg (by intro hc; exact absurd hc.1 (by omega))]
      rw [if_pos hmem]
      refine ⟨found.headD default, ?_, rfl⟩
      cases found with
      | nil => exact absurd rfl hne
      | cons a l => simp

theorem disambiguate_outcome_cases_witness :
    disambiguate "heal" [massHealInfo, massHealingWordInfo]
      = Except.ok (Outcome.ambiguous [Json.str "Mass Heal", Json.str "Mass Healing Word"]) := by
  have h := (disambiguate_outcome_cases "heal" [massHealInfo, massHealingWordInfo]
    (by
      intro m hm
      simp only [List.mem_cons, List.not_mem_nil, or_false] at hm
      rcases hm with rfl | rfl
      · exact ⟨_, rfl⟩
      · exact ⟨_, rfl⟩)).2.1
    (by decide) (by decide)
  simpa [massHealInfo, massHealingWordInfo] using h

/-- C9: search applies the spell formatter get_spell_info to every matching
record of every resource, not only to spells; on a loaded resource whose
records are objects carrying a name but none of the other spell schema fields
(here: no level), any search that finds at least one match raises the lookup
exception KeyError instead of returning a result. -/
theorem search_nonspell_resource_keyError (srd : SRD) (resource attr request : String)
    (trunc : Nat) {items : List Json} {first : Json}
    (hres : lookupKey resource srd.raw = some (Json.arr items))
    (hfirst : items.head? = some first)
    (hattr : pyInKeys attr first = Except.ok true)
    (hobj : ∀ it ∈ items, ∃ fs, it = Json.obj fs ∧ (∃ v, lookupKey "name" fs = some v) ∧
      lookupKey "level" fs = none)
    (hmatch : ∃ it ∈ items, matchedBy attr request it = true) :
    search srd resource attr request trunc = Except.error PyErr.keyError := by
  rw [search_run srd resource attr request trunc hres hfirst hattr]
  rw [searchLoop_missing_level attr request trunc items hobj hmatch 0]
  rfl

theorem search_nonspell_resource_keyError_witness :
    search conditionsSRD "conditions" "name" "blinded" 5 = Except.error PyErr.keyError := by
  apply search_nonspell_resource_keyError conditionsSRD "conditions" "name" "blinded" 5
    rfl rfl rfl
  · intro it hit
    simp only [List.mem_singleton] at hit
    subst hit
    exact ⟨_, rfl, ⟨_, rfl⟩, rfl⟩
  · refine ⟨blindedJson, by simp, ?_⟩
    simp [matchedBy, blindedJson, dictGetE, lookupKey]
    decide

/-- C10: calling search with limit zero disables truncation entirely: the
whole table is scanned, the result contains the formatted image of every
matching record, and the truncated flag is false no matter how many records
match. -/
theorem search_trunc_zero_no_truncation (srd : SRD) (resource attr request : String)
    {items : List Json} {first : Json}
    (hres : lookupKey resource srd.raw = some (Json.arr items))
    (hfirst : items.head? = some first)
    (hattr : pyInKeys attr first = Except.ok true)
    (hA : ∀ it ∈ items, ∃ v, dictGetE it attr = Except.ok v)
    (hI : ∀ it ∈ items, matchedBy attr request it = true →
      ∃ i, get_spell_info it = Except.ok i) :
    ∃ rs, search srd resource attr request 0 = Except.ok (SearchRet.pair rs false) ∧
      rs = (items.filter (matchedBy attr request)).map infoD ∧
      rs.length = (items.filter (matchedBy attr request)).length := by
  refine ⟨(items.filter (matchedBy attr request)).map infoD, ?_, rfl, by simp⟩
  rw [search_run srd resource attr request 0 hres hfirst hattr]
  rw [searchLoop_zero attr request items 0 hA hI]
  rfl

theorem search_trunc_zero_no_truncation_witness :
    search missileSRD "spells" "name" "missile" 0
      = Except.ok (SearchRet.pair
          [infoD (mkSpell "Magic Missile"), infoD (mkSpell "Missile Storm"),
           infoD (mkSpell "Missile Ward")] false) := by
  have hm1 : matchedBy "name" "missile" (mkSpell "Magic Missile") = true := by
    simp [matchedBy, mkSpell, dictGetE, lookupKey]
    decide
  have hm2 : matchedBy "name" "missile" (mkSpell "Missile Storm") = true := by
    simp [matchedBy, mkSpell, dictGetE, lookupKey]
    decide
  have hm3 : matchedBy "name" "missile" (mkSpell "Missile Ward") = true := by
    simp [matchedBy, mkSpell, dictGetE, lookupKey]
    decide
  obtain ⟨rs, hrun, hval, hlen⟩ :=
    search_trunc_zero_no_truncation missileSRD "spells" "name" "missile" rfl rfl rfl
      (fun it hit => by
        simp only [List.mem_cons, List.not_mem_nil, or_false] at hit
        rcases hit with rfl | rfl | rfl <;> exact ⟨_, rfl⟩)
      (fun it hit _ => by
        simp only [List.mem_cons, List.not_mem_nil, or_false] at hit
        rcases hit with rfl | rfl | rfl <;> exact ⟨_, rfl⟩)
  rw [hrun, hval]
  simp [List.filter_cons, hm1, hm2, hm3]

end Srd
